import Mathlib

set_option maxHeartbeats 1000000

/-!
Verification of the ChatLab core: the multi-file merge engine
(`mergeFiles` / `checkConflicts`), the streaming legacy-QQ parser
(member registration, record filtering, batch emission) and the
analytics scans (repeat chains, night-owl day shifting, monologue
streaks), shallowly embedded from the TypeScript sources.

File-system reads/writes, the SQLite session store and progress
callbacks are external effects: parsing is abstracted as an oracle
`String → Except String ParseResult` (a thrown exception is an
`Except.error`), format sniffing as `String → Option String`, and the
wall clock / host timezone as explicit integer parameters.
-/

/-- Unified message type (text/image/voice/video/file/emoji/system). -/
inductive MessageType where
  | text
  | image
  | voice
  | video
  | file
  | emoji
  | system
  deriving DecidableEq, Repr

/-- Normalized message produced by a parser (`ParsedMessage` in
`src/types/chat`): sender platform id, display name, epoch-second
timestamp, type, nullable text content. -/
structure ParsedMessage where
  senderPlatformId : String
  senderName : String
  timestamp : Int
  type : MessageType
  content : Option String
  deriving DecidableEq, Repr

/-- Normalized member: platform-scoped identifier plus display name. -/
structure ParsedMember where
  platformId : String
  name : String
  deriving DecidableEq, Repr

/-- Conversation metadata (name, platform tag, direct/group type);
platform and type are the source's string enums. -/
structure ParsedMeta where
  name : String
  platform : String
  type : String
  deriving DecidableEq, Repr

/-- Result of fully parsing one file. -/
structure ParseResult where
  meta : ParsedMeta
  members : List ParsedMember
  messages : List ParsedMessage
  deriving DecidableEq, Repr

/-- Message record of the ChatLab archive format. -/
structure ChatLabMessage where
  sender : String
  name : String
  timestamp : Int
  type : MessageType
  content : Option String
  deriving DecidableEq, Repr

/-- Member record of the ChatLab archive format; a fresh member starts
with no aliases. -/
structure ChatLabMember where
  platformId : String
  name : String
  aliases : List String
  deriving DecidableEq, Repr

/-- Provenance of one merged source file. -/
structure MergeSource where
  filename : String
  platform : String
  messageCount : Nat
  deriving DecidableEq, Repr

/-- Archive envelope header (`chatlab` block). -/
structure ChatLabHeader where
  version : String
  exportedAt : Int
  generator : String
  deriving DecidableEq, Repr

/-- Archive `meta` block. -/
structure ChatLabMeta where
  name : String
  platform : String
  type : String
  sources : List MergeSource
  deriving DecidableEq, Repr

/-- The ChatLab archive document written by a merge. -/
structure ChatLabFormat where
  chatlab : ChatLabHeader
  meta : ChatLabMeta
  members : List ChatLabMember
  messages : List ChatLabMessage
  deriving DecidableEq, Repr

/-- A detected merge conflict. -/
structure MergeConflict where
  id : String
  timestamp : Int
  sender : String
  contentLength1 : Nat
  contentLength2 : Nat
  content1 : String
  content2 : String
  deriving DecidableEq, Repr

/-- Result of `checkConflicts`. -/
structure ConflictCheckResult where
  conflicts : List MergeConflict
  totalMessages : Nat
  deriving DecidableEq, Repr

/-- A user conflict decision (resolution is one of the source's string
codes `keep1` / `keep2` / `keepBoth`). -/
structure ConflictResolution where
  id : String
  resolution : String
  deriving DecidableEq, Repr

/-- Parameters of `mergeFiles`. -/
structure MergeParams where
  filePaths : List String
  outputName : String
  outputDir : Option String
  conflictResolutions : List ConflictResolution
  andAnalyze : Bool
  deriving DecidableEq, Repr

/-- Return value of `mergeFiles`: the archive data that is serialized on
success (file path generation and disk write are external I/O), or the
structured failure `{success: false, error}`. -/
inductive MergeResult where
  | ok (data : ChatLabFormat)
  | fail (error : String)
  deriving DecidableEq, Repr

/-- `path.basename`: the part of the path after the last separator
(computed on the character list). -/
def basename (p : String) : String :=
  ⟨(p.data.reverse.takeWhile (fun c => c ≠ '/')).reverse⟩

/-- JS `String.prototype.trim`: strip leading and trailing whitespace
(computed on the character list). -/
def jsTrim (s : String) : String :=
  ⟨((s.data.dropWhile Char.isWhitespace).reverse.dropWhile Char.isWhitespace).reverse⟩

/-- The message fingerprint string
`` `${msg.timestamp}_${msg.senderPlatformId}_${(msg.content || '').length}` ``
used for dedup and conflict counting (`getMessageKey`,
src/unnamed/part_001 lines 82-84).  It encodes the
(timestamp, sender platform id, content length) triple. -/
def getMessageKey (msg : ParsedMessage) : String :=
  toString msg.timestamp ++ "_" ++ msg.senderPlatformId ++ "_"
    ++ toString (msg.content.getD "").length

/-- The (timestamp, sender platform id, content length) triple the
fingerprint string encodes. -/
def fingerprint (msg : ParsedMessage) : Int × String × Nat :=
  (msg.timestamp, msg.senderPlatformId, (msg.content.getD "").length)

/-- The fingerprint of an archive message record (same fields renamed),
so that `chatKey (toChatLabMessage m) = getMessageKey m`. -/
def chatKey (c : ChatLabMessage) : String :=
  toString c.timestamp ++ "_" ++ c.sender ++ "_" ++ toString (c.content.getD "").length

/-- Keep exactly the first occurrence of each key, in iteration order:
the specification-side description of fingerprint dedup, and the model
of `[...new Set(xs)]` when the key is the element itself. -/
def specDedupBy {α κ : Type} [DecidableEq κ] (key : α → κ) : List α → List α
  | [] => []
  | a :: as => a :: (specDedupBy key as).filter (fun b => key b ≠ key a)

/-- JS `Array.prototype.includes` on strings / `String.prototype.includes`:
substring containment. -/
def jsIncludes (s sub : String) : Bool :=
  decide (sub.data <:+: s.data)

/-- Decidable equality for `Except` outcomes, used to evaluate concrete
oracle runs. -/
instance {ε α : Type} [DecidableEq ε] [DecidableEq α] : DecidableEq (Except ε α) := fun a b =>
  match a, b with
  | Except.error e1, Except.error e2 =>
    if h : e1 = e2 then Decidable.isTrue (by rw [h])
    else Decidable.isFalse (by intro hc; injection hc; contradiction)
  | Except.error _, Except.ok _ => Decidable.isFalse (by intro hc; injection hc)
  | Except.ok _, Except.error _ => Decidable.isFalse (by intro hc; injection hc)
  | Except.ok a1, Except.ok a2 =>
    if h : a1 = a2 then Decidable.isTrue (by rw [h])
    else Decidable.isFalse (by intro hc; injection hc; contradiction)

/-- JS `Map.set` on an insertion-ordered association list: overwrite in
place when the key exists, otherwise append at the end. -/
def jsMapSet {κ ν : Type} [DecidableEq κ] (m : List (κ × ν)) (k : κ) (v : ν) : List (κ × ν) :=
  match m with
  | [] => [(k, v)]
  | (k0, v0) :: rest => if k0 = k then (k0, v) :: rest else (k0, v0) :: jsMapSet rest k v

/-- Grouping step `map.get(k)!.push(v)` (creating the entry first when
absent), as used by the conflict scan's time/sender/length grouping. -/
def jsGroupPush {κ ν : Type} [DecidableEq κ] (m : List (κ × List ν)) (k : κ) (v : ν) :
    List (κ × List ν) :=
  match m with
  | [] => [(k, [v])]
  | (k0, l) :: rest =>
    if k0 = k then (k0, l ++ [v]) :: rest else (k0, l) :: jsGroupPush rest k v

/-- Convert a parsed message to the archive message record
(lines 315-321 of src/unnamed/part_001). -/
def toChatLabMessage (msg : ParsedMessage) : ChatLabMessage :=
  { sender := msg.senderPlatformId
    name := msg.senderName
    timestamp := msg.timestamp
    type := msg.type
    content := msg.content }

/-- One step of the member-unification loop (lines 258-274): first-seen
name wins, later distinct names are appended to `aliases`. -/
def addMember (map : List (String × ChatLabMember)) (mem : ParsedMember) :
    List (String × ChatLabMember) :=
  match map with
  | [] => [(mem.platformId, { platformId := mem.platformId, name := mem.name, aliases := [] })]
  | (k, ex) :: rest =>
    if k = mem.platformId then
      (k, if ex.name ≠ mem.name ∧ mem.name ∉ ex.aliases
          then { ex with aliases := ex.aliases ++ [mem.name] } else ex) :: rest
    else (k, ex) :: addMember rest mem

/-- One step of the message-dedup map update (lines 310-328): ensure an
entry for the key exists, and push the message only when the entry's
list is still empty. -/
def addMessage (map : List (String × List ChatLabMessage)) (key : String) (m : ChatLabMessage) :
    List (String × List ChatLabMessage) :=
  match map with
  | [] => [(key, [m])]
  | (k, l) :: rest =>
    if k = key then (k, if l.isEmpty then [m] else l) :: rest
    else (k, l) :: addMessage rest key m

/-- Accumulator of the dedup loop: the message map plus the set of
already-processed conflict ids (insertion ordered). -/
structure DedupState where
  messageMap : List (String × List ChatLabMessage)
  processedConflicts : List String
  deriving DecidableEq, Repr

/-- Body of the dedup loop (lines 290-328).  The conflict-resolution
lookup marks the conflict id as processed, but both the `keepBoth` and
the `keep1`/`keep2` branches of the source are empty, so the resolution
never influences the message map. -/
def mergeStep (conflictResolutions : List ConflictResolution) (st : DedupState)
    (msg : ParsedMessage) : DedupState :=
  let key := getMessageKey msg
  let conflictId :=
    (conflictResolutions.find? fun c =>
      jsIncludes c.id (toString msg.timestamp ++ "_" ++ msg.senderPlatformId)).map (·.id)
  let processed :=
    match conflictId with
    | some cid =>
      if st.processedConflicts.contains cid then st.processedConflicts
      else st.processedConflicts ++ [cid]
    | none => st.processedConflicts
  { messageMap := addMessage st.messageMap key (toChatLabMessage msg)
    processedConflicts := processed }

/-- The flattened-and-sorted merged message list (lines 330-333):
`Array.from(messageMap.values()).flat().sort((a, b) => a.timestamp - b.timestamp)`,
with the ECMAScript stable sort modeled by `List.mergeSort`. -/
def mergedMessagesOf (conflictResolutions : List ConflictResolution)
    (allMessages : List ParsedMessage) : List ChatLabMessage :=
  (((allMessages.foldl (mergeStep conflictResolutions) ⟨[], []⟩).messageMap.map
      Prod.snd).flatten).mergeSort (fun a b => a.timestamp ≤ b.timestamp)

/-- `mergeFiles` (src/unnamed/part_001 lines 245-407).  The whole body
runs inside `try { ... } catch`, so a failing parse oracle yields the
structured `fail` result.  `now` stands for `Math.floor(Date.now() / 1000)`;
writing the archive file and the optional database import are external
effects, so the success case carries the archive data itself.  With an
empty path list the source dereferences `parseResults[0]` and the thrown
`TypeError` is caught; its runtime-specific message is modeled by the
fixed string below. -/
def mergeFiles (now : Int) (parse : String → Except String ParseResult)
    (params : MergeParams) : MergeResult :=
  match params.filePaths.mapM (fun p => (parse p).map (fun r => (r, basename p))) with
  | Except.error e => MergeResult.fail e
  | Except.ok parseResults =>
    match parseResults with
    | [] => MergeResult.fail "TypeError: cannot read meta of undefined"
    | first :: _ =>
      let memberMap := parseResults.foldl (fun m pr => pr.1.members.foldl addMember m) []
      let allMessages := (parseResults.map (fun pr => pr.1.messages)).flatten
      let mergedMessages := mergedMessagesOf params.conflictResolutions allMessages
      let platforms := specDedupBy id (parseResults.map (fun pr => pr.1.meta.platform))
      let platform := if platforms.length = 1 then first.1.meta.platform else "mixed"
      let sources : List MergeSource := parseResults.map fun pr =>
        { filename := pr.2, platform := pr.1.meta.platform, messageCount := pr.1.messages.length }
      MergeResult.ok
        { chatlab := { version := "1.0.0", exportedAt := now, generator := "ChatLab Merge Tool" }
          meta := { name := params.outputName, platform := platform
                    type := first.1.meta.type, sources := sources }
          members := memberMap.map Prod.snd
          messages := mergedMessages }

/-- A parsed message tagged with its source file's basename. -/
structure SourcedMessage where
  msg : ParsedMessage
  source : String
  deriving DecidableEq, Repr

/-- Error message thrown for a file no descriptor matches
(src/unnamed/part_001 line 107). -/
def unrecognizedFormatMessage (p : String) : String :=
  "无法识别文件格式: " ++ basename p

/-- JS `Array.prototype.join(sep)`. -/
def joinSep (sep : String) : List String → String
  | [] => ""
  | [x] => x
  | x :: y :: xs => x ++ sep ++ joinSep sep (y :: xs)

/-- Error message thrown on a format mismatch (lines 113-117),
interpolating the deduplicated format-name list. -/
def formatMismatchMessage (uniqueFormats : List String) : String :=
  "不支持合并不同格式的聊天记录。\n检测到的格式：" ++ joinSep "、" uniqueFormats
    ++ "\n请确保所有文件使用相同的导出工具和格式。"

/-- The index pairs (i, j) with i < j of the double loop over length
groups (lines 187-188), as ordered element pairs. -/
def orderedPairs {ν : Type} : List ν → List (ν × ν)
  | [] => []
  | x :: xs => (xs.map (fun y => (x, y))) ++ orderedPairs xs

/-- Process one (length₁, length₂) pair of a (timestamp, sender) group
(lines 189-221): take the first message of the first group, find in the
second group a message from a different file, and append one conflict
record; the conflict id uses the global running conflict count. -/
def lengthPairStep (ts : Int) (sender : String) (acc : List MergeConflict)
    (pair : (Nat × List SourcedMessage) × (Nat × List SourcedMessage)) : List MergeConflict :=
  match pair.1.2 with
  | [] => acc
  | item1 :: _ =>
    match pair.2.2.find? (fun it => it.source ≠ item1.source) with
    | none => acc
    | some item2 =>
      acc ++ [{ id := "conflict_" ++ toString ts ++ "_" ++ sender ++ "_" ++ toString acc.length
                timestamp := ts
                sender := if item1.msg.senderName ≠ "" then item1.msg.senderName else sender
                contentLength1 := pair.1.1
                contentLength2 := pair.2.1
                content1 := item1.msg.content.getD ""
                content2 := item2.msg.content.getD "" }]

/-- Process one (timestamp, sender) group (lines 164-224): skip groups
with fewer than two messages or drawn from a single file, group by
content length, and report each differing-length pair. -/
def senderGroupStep (ts : Int) (acc : List MergeConflict)
    (g : String × List SourcedMessage) : List MergeConflict :=
  let senderItems := g.2
  if senderItems.length < 2 then acc
  else
    let sources := specDedupBy id (senderItems.map (·.source))
    if sources.length < 2 then acc
    else
      let lengthGroups := senderItems.foldl
        (fun m it => jsGroupPush m (it.msg.content.getD "").length it) []
      if lengthGroups.length > 1 then
        (orderedPairs lengthGroups).foldl (lengthPairStep ts g.1) acc
      else acc

/-- Process one timestamp group (lines 150-225): skip singleton groups,
then group by sender and scan each sender group. -/
def timeGroupStep (acc : List MergeConflict) (g : Int × List SourcedMessage) :
    List MergeConflict :=
  if g.2.length < 2 then acc
  else
    let senderGroups := g.2.foldl (fun m it => jsGroupPush m it.msg.senderPlatformId it) []
    senderGroups.foldl (senderGroupStep g.1) acc

/-- The conflict list produced from all sourced messages. -/
def detectConflictList (allMessages : List SourcedMessage) : List MergeConflict :=
  let timeGroups := allMessages.foldl (fun m it => jsGroupPush m it.msg.timestamp it) []
  timeGroups.foldl timeGroupStep []

/-- The `Set`-based distinct-fingerprint count of the tail of
`checkConflicts` (lines 230-234). -/
def uniqueKeySet (allMessages : List SourcedMessage) : List String :=
  allMessages.foldl
    (fun s it => if s.contains (getMessageKey it.msg) then s else s ++ [getMessageKey it.msg]) []

/-- `checkConflicts` (src/unnamed/part_001 lines 90-240).  Unlike
`mergeFiles` it has no surrounding try/catch: the unrecognized-format and
format-mismatch `throw`s, and any parse failure, propagate to the caller;
they are the `Except.error` outcomes.  Format sniffing runs over every
file before any file is parsed. -/
def checkConflicts (detect : String → Option String)
    (parse : String → Except String ParseResult) (filePaths : List String) :
    Except String ConflictCheckResult :=
  match filePaths.mapM (fun p =>
      match detect p with
      | some f => Except.ok f
      | none => Except.error (unrecognizedFormatMessage p)) with
  | Except.error e => Except.error e
  | Except.ok formats =>
    let uniqueFormats := specDedupBy id formats
    if uniqueFormats.length > 1 then Except.error (formatMismatchMessage uniqueFormats)
    else
      match filePaths.mapM (fun p => (parse p).map (fun r => (r, basename p))) with
      | Except.error e => Except.error e
      | Except.ok results =>
        let allMessages := (results.map (fun pr =>
          pr.1.messages.map (fun m => SourcedMessage.mk m pr.2))).flatten
        Except.ok
          { conflicts := detectConflictList allMessages
            totalMessages := (uniqueKeySet allMessages).length }

/-- A resource attached to a message (`content.resources[i]`). -/
structure LegacyResource where
  type : String
  deriving DecidableEq, Repr

/-- An inline element of a message (`content.elements[i]`). -/
structure LegacyElement where
  type : String
  deriving DecidableEq, Repr

/-- The `content` object of a legacy-export record. -/
structure LegacyContent where
  text : String
  resources : Option (List LegacyResource)
  elements : Option (List LegacyElement)
  deriving DecidableEq, Repr

/-- The `sender` object of a legacy-export record: `uin` is the numeric
id (required but possibly empty), `uid` the alternate id field. -/
structure LegacySender where
  uid : Option String
  uin : String
  name : String
  deriving DecidableEq, Repr

/-- One record of the shuakami legacy export: millisecond timestamp,
sender, optional per-format type code, system/recalled flags, content. -/
structure LegacyMessage where
  timestamp : Int
  sender : LegacySender
  type : Option String
  system : Bool
  recalled : Bool
  content : LegacyContent
  deriving DecidableEq, Repr

/-- Modelled from the spec: `parseTimestamp` lives in the parser `utils`
module, which is not part of the provided sources.  Per §4.3, an integer
timestamp is interpreted as milliseconds and divided to seconds
(`Math.floor`, i.e. floor division); an unparseable value yields null. -/
def parseTimestamp (ms : Int) : Option Int :=
  some (ms / 1000)

/-- Modelled from the spec: `isValidYear` lives in the parser `utils`
module, which is not part of the provided sources.  Per §4.3, a record
whose resolved year is before 2000 is invalid; 946684800 is
2000-01-01T00:00:00Z in epoch seconds. -/
def isValidYear (ts : Int) : Bool :=
  946684800 ≤ ts

/-- `msg.sender.uin || msg.sender.uid` followed by the
`if (!platformId) return null` guard: the resolved sender platform id,
with JS falsiness of the empty string. -/
def resolveSenderId (s : LegacySender) : Option String :=
  let pid := if s.uin ≠ "" then some s.uin else s.uid
  match pid with
  | some p => if p = "" then none else some p
  | none => none

/-- `convertMessageType` of the legacy parser
(src/electron/main/parser/formats/shuakami-qq-exporter-legacy.ts
lines 70-109): resource type first, then face/market_face elements,
then the legacy `type_*` string code, defaulting to text. -/
def convertMessageType (qqType : Option String) (content : LegacyContent) : MessageType :=
  match content.resources with
  | some (r :: _) =>
    if r.type = "image" then MessageType.image
    else if r.type = "video" then MessageType.video
    else if r.type = "voice" ∨ r.type = "audio" then MessageType.voice
    else if r.type = "file" then MessageType.file
    else convertMessageTypeRest qqType content
  | _ => convertMessageTypeRest qqType content
where
  /-- The element check and `type_*` switch reached when the resource
  switch falls through. -/
  convertMessageTypeRest (qqType : Option String) (content : LegacyContent) : MessageType :=
    if (content.elements.getD []).any (fun e => e.type = "market_face" ∨ e.type = "face") then
      MessageType.emoji
    else if qqType = some "type_1" then MessageType.text
    else if qqType = some "type_17" then MessageType.emoji
    else if qqType = some "type_3" then MessageType.image
    else if qqType = some "type_7" then MessageType.voice
    else MessageType.text

/-- The value `processMessage` returns for one record (legacy parser
lines 161-192), minus its member-map side effect: `null` (here `none`)
when the sender id is unresolvable or the timestamp fails the year
guard. -/
def processMessage (msg : LegacyMessage) : Option ParsedMessage :=
  match resolveSenderId msg.sender with
  | none => none
  | some platformId =>
    let senderName := if msg.sender.name ≠ "" then msg.sender.name else platformId
    match parseTimestamp msg.timestamp with
    | none => none
    | some timestamp =>
      if ¬ isValidYear timestamp then none
      else
        let type := if msg.system then MessageType.system
                    else convertMessageType msg.type msg.content
        let textContent := if msg.recalled then "[已撤回] " ++ msg.content.text
                           else msg.content.text
        some { senderPlatformId := platformId
               senderName := senderName
               timestamp := timestamp
               type := type
               content := if textContent = "" then none else some textContent }

/-- Parser accumulator: the insertion-ordered member map and the
collected message list. -/
structure LegacyState where
  memberMap : List (String × ParsedMember)
  messages : List ParsedMessage
  deriving DecidableEq, Repr

/-- One pipeline `data` callback (lines 161-218): the member map is
updated as soon as the sender id resolves — before the timestamp
validity check — and the message is collected only when `processMessage`
returns a value.  A record-level defect changes no state beyond the
member map and never aborts the stream. -/
def legacyStep (st : LegacyState) (msg : LegacyMessage) : LegacyState :=
  match resolveSenderId msg.sender with
  | none => st
  | some platformId =>
    let senderName := if msg.sender.name ≠ "" then msg.sender.name else platformId
    let entry : ParsedMember := { platformId := platformId, name := senderName }
    let st1 : LegacyState := { st with memberMap := jsMapSet st.memberMap platformId entry }
    match processMessage msg with
    | none => st1
    | some parsed => { st1 with messages := st1.messages ++ [parsed] }

/-- The aggregate output of one legacy parse: the `members` event, the
collected messages (emitted in batches), and the `done` event counts. -/
structure LegacyOutput where
  members : List ParsedMember
  messages : List ParsedMessage
  messageCount : Nat
  memberCount : Nat
  deriving DecidableEq, Repr

/-- Run the legacy parser over the record sequence of a file
(lines 152-248): fold the pipeline callback, then emit members,
message batches and the final counts. -/
def runLegacy (records : List LegacyMessage) : LegacyOutput :=
  let final := records.foldl legacyStep ⟨[], []⟩
  { members := final.memberMap.map Prod.snd
    messages := final.messages
    messageCount := final.messages.length
    memberCount := final.memberMap.length }

/-- Slice a list into `batchSize` chunks, mirroring the emission loop
`for (let i = 0; i < messageBatch.length; i += batchSize)`
(lines 235-238).  The source loops forever on a zero batch size; that
degenerate case is modeled as a single chunk. -/
def toBatches {α : Type} (batchSize : Nat) (l : List α) : List (List α) :=
  if _h : batchSize = 0 then [l]
  else
    match l with
    | [] => []
    | x :: xs =>
      (x :: xs).take batchSize :: toBatches batchSize ((x :: xs).drop batchSize)
termination_by l.length
decreasing_by
  simp only [List.length_drop, List.length_cons]
  omega

/-- One row fetched by the repeat-analysis query (text messages joined
with their sender, ordered by timestamp then id). -/
structure RepeatRow where
  senderId : Int
  content : String
  ts : Int
  platformId : String
  name : String
  deriving DecidableEq, Repr

/-- One entry of the running repeat chain. -/
structure RepeatEntry where
  senderId : Int
  content : String
  ts : Int
  deriving DecidableEq, Repr

/-- Per-content chain statistics (`contentStats` values). -/
structure ContentStat where
  count : Nat
  maxChainLength : Nat
  originatorId : Int
  lastTs : Int
  deriving DecidableEq, Repr

/-- `map.set(k, (map.get(k) || 0) + 1)` on an insertion-ordered map. -/
def bumpCount {κ : Type} [DecidableEq κ] (m : List (κ × Nat)) (k : κ) : List (κ × Nat) :=
  jsMapSet m k (((m.lookup k).getD 0) + 1)

/-- Accumulators of the repeat-chain scan
(src/unnamed/part_005 lines 71-122). -/
structure RepeatState where
  originatorCount : List (Int × Nat)
  initiatorCount : List (Int × Nat)
  breakerCount : List (Int × Nat)
  memberMessageCount : List (Int × Nat)
  memberInfo : List (Int × String × String)
  chainLengthCount : List (Nat × Nat)
  contentStats : List (String × ContentStat)
  currentContent : Option String
  repeatChain : List RepeatEntry
  totalRepeatChains : Nat
  totalChainLength : Nat
  deriving DecidableEq, Repr

/-- The initial (all-empty) repeat-scan state. -/
def initRepeatState : RepeatState :=
  { originatorCount := [], initiatorCount := [], breakerCount := []
    memberMessageCount := [], memberInfo := [], chainLengthCount := []
    contentStats := [], currentContent := none, repeatChain := []
    totalRepeatChains := 0, totalChainLength := 0 }

/-- `processRepeatChain` (lines 87-122): a chain shorter than 3 is
discarded; otherwise credit the originator (position 0), the initiator
(position 1) and, when present, the breaker, and update the length
histogram and the per-content statistics. -/
def processRepeatChain (st : RepeatState) (chain : List RepeatEntry)
    (breakerId : Option Int) : RepeatState :=
  if chain.length < 3 then st
  else
    match chain with
    | e0 :: e1 :: _ =>
      let chainLength := chain.length
      let st1 := { st with
        totalRepeatChains := st.totalRepeatChains + 1
        totalChainLength := st.totalChainLength + chainLength
        originatorCount := bumpCount st.originatorCount e0.senderId
        initiatorCount := bumpCount st.initiatorCount e1.senderId }
      let st2 :=
        match breakerId with
        | some b => { st1 with breakerCount := bumpCount st1.breakerCount b }
        | none => st1
      let st3 := { st2 with chainLengthCount := bumpCount st2.chainLengthCount chainLength }
      let newStat :=
        match st3.contentStats.lookup e0.content with
        | some ex =>
          let ex1 := { ex with count := ex.count + 1, lastTs := max ex.lastTs e0.ts }
          if chainLength > ex1.maxChainLength then
            { ex1 with maxChainLength := chainLength, originatorId := e0.senderId }
          else ex1
        | none =>
          { count := 1, maxChainLength := chainLength, originatorId := e0.senderId
            lastTs := e0.ts }
      { st3 with contentStats := jsMapSet st3.contentStats e0.content newStat }
    | _ => st

/-- One iteration of the repeat-chain scan loop (lines 124-144): a
message whose trimmed content equals the running content extends the
chain only when its sender differs from the chain's last sender; a
content change flushes the chain with the new message's sender as
breaker and restarts the chain. -/
def repeatStep (st : RepeatState) (msg : RepeatRow) : RepeatState :=
  let st :=
    if (st.memberInfo.lookup msg.senderId).isSome then st
    else { st with memberInfo := jsMapSet st.memberInfo msg.senderId (msg.platformId, msg.name) }
  let st := { st with memberMessageCount := bumpCount st.memberMessageCount msg.senderId }
  let content := jsTrim msg.content
  if some content = st.currentContent then
    let lastSender := (st.repeatChain.getLast?).map (·.senderId)
    if lastSender ≠ some msg.senderId then
      { st with repeatChain := st.repeatChain ++ [⟨msg.senderId, content, msg.ts⟩] }
    else st
  else
    let st1 := processRepeatChain st st.repeatChain (some msg.senderId)
    { st1 with currentContent := some content
               repeatChain := [⟨msg.senderId, content, msg.ts⟩] }

/-- The full repeat-chain scan (lines 124-146): fold over the rows, then
flush the final chain with no breaker. -/
def repeatScan (rows : List RepeatRow) : RepeatState :=
  let final := rows.foldl repeatStep initRepeatState
  processRepeatChain final final.repeatChain none

/-- `getAdjustedDate` (src/unnamed/part_005 lines 319-328) on a host
with a fixed UTC offset of `tzOffset` seconds:
`new Date(ts * 1000).getHours()` reads the local hour;
`date.setDate(date.getDate() - 1)` moves the instant back one day
(86400 s under a fixed offset); `toISOString().split('T')[0]` prints the
UTC calendar date, modeled as the UTC day number since the epoch. -/
def getAdjustedDate (tzOffset : Int) (ts : Int) : Int :=
  let hour := ((ts + tzOffset) % 86400) / 3600
  let shifted := if hour < 5 then ts - 86400 else ts
  shifted / 86400

/-- The local calendar day number of an instant (days since the epoch,
in local time): the claim's "its own calendar day". -/
def localDayIndex (tzOffset : Int) (ts : Int) : Int :=
  (ts + tzOffset) / 86400

/-- The local clock time of an instant, in seconds since the local
midnight. -/
def localSecondsOfDay (tzOffset : Int) (ts : Int) : Int :=
  (ts + tzOffset) % 86400

/-- One row fetched by the monologue query. -/
structure MonoRow where
  senderId : Int
  ts : Int
  platformId : String
  name : String
  deriving DecidableEq, Repr

/-- Per-member monologue statistics. -/
structure MonoStats where
  totalStreaks : Nat
  maxCombo : Nat
  lowStreak : Nat
  midStreak : Nat
  highStreak : Nat
  deriving DecidableEq, Repr

/-- The running streak (`currentStreak`). -/
structure CurrentStreak where
  senderId : Int
  count : Nat
  startTs : Int
  lastTs : Int
  deriving DecidableEq, Repr

/-- Accumulators of the monologue scan
(src/unnamed/part_005 lines 790-870). -/
structure MonoState where
  memberInfo : List (Int × String × String)
  memberStats : List (Int × MonoStats)
  globalMaxCombo : Option (Int × Nat × Int)
  currentStreak : CurrentStreak
  deriving DecidableEq, Repr

/-- `finishStreak` (lines 812-846): a streak of length ≥ 3 is counted
and bucketed — ≥ 10 high, ≥ 5 mid, otherwise low — and may become the
global longest combo; shorter streaks leave the state unchanged. -/
def finishStreak (st : MonoState) : MonoState :=
  if st.currentStreak.count ≥ 3 then
    let memberId := st.currentStreak.senderId
    let stats := (st.memberStats.lookup memberId).getD ⟨0, 0, 0, 0, 0⟩
    let stats1 := { stats with
      totalStreaks := stats.totalStreaks + 1
      maxCombo := max stats.maxCombo st.currentStreak.count }
    let stats2 :=
      if st.currentStreak.count ≥ 10 then { stats1 with highStreak := stats1.highStreak + 1 }
      else if st.currentStreak.count ≥ 5 then { stats1 with midStreak := stats1.midStreak + 1 }
      else { stats1 with lowStreak := stats1.lowStreak + 1 }
    let gmc :=
      match st.globalMaxCombo with
      | none => some (memberId, st.currentStreak.count, st.currentStreak.startTs)
      | some g =>
        if st.currentStreak.count > g.2.1 then
          some (memberId, st.currentStreak.count, st.currentStreak.startTs)
        else some g
    { st with memberStats := jsMapSet st.memberStats memberId stats2, globalMaxCombo := gmc }
  else st

/-- One iteration of the monologue loop (lines 848-868): the streak
continues when the sender matches and the gap is at most 300 seconds
(`MAX_INTERVAL`), otherwise the finished streak is flushed and a fresh
length-1 streak starts. -/
def monoStep (st : MonoState) (msg : MonoRow) : MonoState :=
  let st :=
    if (st.memberInfo.lookup msg.senderId).isSome then st
    else { st with memberInfo := jsMapSet st.memberInfo msg.senderId (msg.platformId, msg.name) }
  let isSameSender := msg.senderId = st.currentStreak.senderId
  let isWithinInterval := msg.ts - st.currentStreak.lastTs ≤ 300
  if isSameSender ∧ isWithinInterval then
    { st with currentStreak :=
        { st.currentStreak with count := st.currentStreak.count + 1, lastTs := msg.ts } }
  else
    let st1 := finishStreak st
    { st1 with currentStreak :=
        { senderId := msg.senderId, count := 1, startTs := msg.ts, lastTs := msg.ts } }

/-- The full monologue scan (lines 805-870): the initial streak has
sender −1 and count 0, the fold runs over all rows, and the last streak
is flushed at the end. -/
def monoScan (rows : List MonoRow) : MonoState :=
  finishStreak (rows.foldl monoStep ⟨[], [], none, ⟨-1, 0, 0, 0⟩⟩)

/-- Sample data for concrete instantiations: a message with content
"ab". -/
def wMsgAb : ParsedMessage := ⟨"u", "U", 1, MessageType.text, some "ab"⟩

/-- Sample data: a message with the same fingerprint (same timestamp,
sender and content length) but different content "cd". -/
def wMsgCd : ParsedMessage := ⟨"u", "U", 1, MessageType.text, some "cd"⟩

/-- Sample data: a parse result holding both sample messages. -/
def wResult : ParseResult := ⟨⟨"g", "qq", "group"⟩, [], [wMsgAb, wMsgCd]⟩

/-- Sample data: a parse oracle returning `wResult` for every path. -/
def wParse : String → Except String ParseResult := fun _ => Except.ok wResult

/-- Sample data: merge parameters over the single file "a" with no
conflict resolutions. -/
def wParams : MergeParams := ⟨["a"], "out", none, [], false⟩

/-- Sample data: the archive `mergeFiles 0 wParse wParams` produces —
only the first-encountered message of the duplicated fingerprint
survives. -/
def wData : ChatLabFormat :=
  ⟨⟨"1.0.0", 0, "ChatLab Merge Tool"⟩, ⟨"out", "qq", "group", [⟨"a", "qq", 2⟩]⟩, [],
    [⟨"u", "U", 1, MessageType.text, some "ab"⟩]⟩

/-- Sample legacy record: sender u1, 2023 millisecond timestamp. -/
def wRecLate : LegacyMessage :=
  ⟨1700000000000, ⟨none, "u1", "A"⟩, none, false, false, ⟨"x", none, none⟩⟩

/-- Sample legacy record: same sender, an earlier (2020) timestamp. -/
def wRecEarly : LegacyMessage :=
  ⟨1600000000000, ⟨none, "u1", "A"⟩, none, false, false, ⟨"y", none, none⟩⟩

/-- Sample legacy record whose timestamp resolves to 1970 (invalid year)
but whose sender u2 is resolvable. -/
def wRecBadTs : LegacyMessage :=
  ⟨1000, ⟨none, "u2", "B"⟩, none, false, false, ⟨"z", none, none⟩⟩

/-- Sample legacy record with no resolvable sender (empty uin, no uid). -/
def wRecNoSender : LegacyMessage :=
  ⟨1700000000000, ⟨none, "", "C"⟩, none, false, false, ⟨"w", none, none⟩⟩

/-- Sample data: a message like `wMsgAb` but at timestamp 2 (a distinct
fingerprint). -/
def wMsgT2 : ParsedMessage := ⟨"u", "U", 2, MessageType.text, some "ab"⟩

/-- Sample data: a parse result whose two messages carry distinct
fingerprints. -/
def wResult2 : ParseResult := ⟨⟨"g", "qq", "group"⟩, [], [wMsgAb, wMsgT2]⟩

/-- Sample data: a parse oracle returning `wResult2` for every path. -/
def wParse2 : String → Except String ParseResult := fun _ => Except.ok wResult2

theorem specDedupBy_cons {α κ : Type} [DecidableEq κ] (key : α → κ) (a : α) (as : List α) :
    specDedupBy key (a :: as)
      = a :: (specDedupBy key as).filter (fun b => key b ≠ key a) := rfl

theorem specDedupBy_subset {α κ : Type} [DecidableEq κ] (key : α → κ) :
    ∀ (l : List α), ∀ x ∈ specDedupBy key l, x ∈ l := by
  intro l
  induction l with
  | nil => intro x hx; exact absurd hx (List.not_mem_nil x)
  | cons a as ih =>
    intro x hx
    rw [specDedupBy_cons] at hx
    rcases List.mem_cons.1 hx with hx | hx
    · exact hx ▸ List.mem_cons_self a as
    · exact List.mem_cons_of_mem a (ih x (List.mem_of_mem_filter hx))

theorem mem_specDedupBy_id {α : Type} [DecidableEq α] :
    ∀ (l : List α) (x : α), x ∈ specDedupBy id l ↔ x ∈ l := by
  intro l
  induction l with
  | nil => intro x; rfl
  | cons a as ih =>
    intro x
    rw [specDedupBy_cons]
    constructor
    · intro hx
      rcases List.mem_cons.1 hx with hx | hx
      · exact hx ▸ List.mem_cons_self a as
      · exact List.mem_cons_of_mem a ((ih x).1 (List.mem_of_mem_filter hx))
    · intro hx
      rcases List.mem_cons.1 hx with hx | hx
      · exact hx ▸ List.mem_cons_self a _
      · by_cases hax : x = a
        · exact hax ▸ List.mem_cons_self a _
        · refine List.mem_cons_of_mem a (List.mem_filter.2 ⟨(ih x).2 hx, ?_⟩)
          simpa [id] using hax

theorem addMessage_of_mem :
    ∀ (m : List (String × List ChatLabMessage)) (k : String) (v : ChatLabMessage),
      k ∈ m.map Prod.fst → (∀ p ∈ m, p.2 ≠ []) → addMessage m k v = m := by
  intro m
  induction m with
  | nil => intro k v hk _; simp at hk
  | cons p rest ih =>
    intro k v hk hinv
    obtain ⟨k0, l⟩ := p
    by_cases h0 : k0 = k
    · have hne : l ≠ [] := hinv (k0, l) (List.mem_cons_self _ _)
      cases l with
      | nil => exact absurd rfl hne
      | cons x xs => simp [addMessage, h0]
    · have hk2 : k ∈ rest.map Prod.fst := by
        rcases List.mem_cons.1 hk with h | h
        · exact absurd h.symm h0
        · exact h
      have hinv2 : ∀ p ∈ rest, p.2 ≠ [] := fun p hp => hinv p (List.mem_cons_of_mem _ hp)
      simp [addMessage, h0, ih k v hk2 hinv2]

theorem addMessage_of_not_mem :
    ∀ (m : List (String × List ChatLabMessage)) (k : String) (v : ChatLabMessage),
      k ∉ m.map Prod.fst → addMessage m k v = m ++ [(k, [v])] := by
  intro m
  induction m with
  | nil => intro k v _; rfl
  | cons p rest ih =>
    intro k v hk
    obtain ⟨k0, l⟩ := p
    have h0 : k0 ≠ k := by
      intro h; exact hk (by simp [h])
    have hk2 : k ∉ rest.map Prod.fst := by
      intro h; exact hk (by simp [h])
    simp [addMessage, h0, ih k v hk2]

theorem addMessage_inv :
    ∀ (m : List (String × List ChatLabMessage)) (k : String) (v : ChatLabMessage),
      (∀ p ∈ m, p.2 ≠ []) → ∀ p ∈ addMessage m k v, p.2 ≠ [] := by
  intro m
  induction m with
  | nil =>
    intro k v _ p hp
    simp only [addMessage] at hp
    rcases List.mem_cons.1 hp with h | h
    · subst h; simp
    · simp at h
  | cons q rest ih =>
    intro k v hinv p hp
    obtain ⟨k0, l⟩ := q
    by_cases h0 : k0 = k
    · simp only [addMessage, if_pos h0] at hp
      rcases List.mem_cons.1 hp with h | h
      · subst h
        by_cases hl : l.isEmpty
        · simp [hl]
        · simpa [hl] using hinv (k0, l) (List.mem_cons_self _ _)
      · exact hinv p (List.mem_cons_of_mem _ h)
    · simp only [addMessage, if_neg h0] at hp
      rcases List.mem_cons.1 hp with h | h
      · subst h; exact hinv (k0, l) (List.mem_cons_self _ _)
      · exact ih k v (fun q hq => hinv q (List.mem_cons_of_mem _ hq)) p h

theorem specDedupBy_filter_inv {α κ : Type} [DecidableEq κ] (key : α → κ) (p : α → Bool)
    (hp : ∀ a b, key a = key b → p a = p b) :
    ∀ l : List α, specDedupBy key (l.filter p) = (specDedupBy key l).filter p := by
  intro l
  induction l with
  | nil => rfl
  | cons a as ih =>
    rw [List.filter_cons, specDedupBy_cons, List.filter_cons]
    by_cases hq : p a = true
    · rw [if_pos hq, if_pos hq, specDedupBy_cons, ih, List.filter_comm]
    · rw [if_neg hq, if_neg hq, ih, List.filter_filter]
      refine List.filter_congr ?_
      intro b _
      by_cases hb : p b = true
      · have hk : (decide (key b ≠ key a)) = true := by
          refine decide_eq_true ?_
          intro he
          exact hq ((hp a b he.symm) ▸ hb)
        rw [hb, hk]
        rfl
      · rw [Bool.not_eq_true] at hb
        rw [hb]
        rfl

theorem mergeStep_messageMap (res : List ConflictResolution) (st : DedupState)
    (msg : ParsedMessage) :
    (mergeStep res st msg).messageMap
      = addMessage st.messageMap (getMessageKey msg) (toChatLabMessage msg) := rfl

theorem foldl_mergeStep_messageMap (res : List ConflictResolution) :
    ∀ (msgs : List ParsedMessage) (st : DedupState),
      (msgs.foldl (mergeStep res) st).messageMap
        = msgs.foldl (fun m msg => addMessage m (getMessageKey msg) (toChatLabMessage msg))
            st.messageMap := by
  intro msgs
  induction msgs with
  | nil => intro st; rfl
  | cons x xs ih =>
    intro st
    simp only [List.foldl_cons]
    rw [ih, mergeStep_messageMap]

theorem foldl_addMessage_flatten :
    ∀ (msgs : List ParsedMessage) (m : List (String × List ChatLabMessage)),
      (∀ p ∈ m, p.2 ≠ []) →
      ((msgs.foldl (fun acc msg => addMessage acc (getMessageKey msg) (toChatLabMessage msg))
          m).map Prod.snd).flatten
        = (m.map Prod.snd).flatten
          ++ (specDedupBy getMessageKey
              (msgs.filter (fun x => getMessageKey x ∉ m.map Prod.fst))).map
                toChatLabMessage := by
  intro msgs
  induction msgs with
  | nil => intro m _; simp [specDedupBy]
  | cons x xs ih =>
    intro m hinv
    simp only [List.foldl_cons, List.filter_cons]
    by_cases hx : getMessageKey x ∈ m.map Prod.fst
    · rw [addMessage_of_mem _ _ _ hx hinv, if_neg (by simpa using hx), ih m hinv]
    · rw [addMessage_of_not_mem _ _ _ hx, if_pos (by simpa using hx)]
      have hinv2 : ∀ p ∈ m ++ [(getMessageKey x, [toChatLabMessage x])], p.2 ≠ [] := by
        intro p hp
        rcases List.mem_append.1 hp with h | h
        · exact hinv p h
        · simp only [List.mem_singleton] at h
          subst h
          simp
      rw [ih _ hinv2]
      have hflat : ((m ++ [(getMessageKey x, [toChatLabMessage x])]).map Prod.snd).flatten
          = (m.map Prod.snd).flatten ++ [toChatLabMessage x] := by
        simp
      have hkeys : (m ++ [(getMessageKey x, [toChatLabMessage x])]).map Prod.fst
          = m.map Prod.fst ++ [getMessageKey x] := by
        simp
      rw [hflat, hkeys, specDedupBy_cons]
      have hfilter :
          xs.filter (fun b => getMessageKey b ∉ m.map Prod.fst ++ [getMessageKey x])
            = (xs.filter (fun b => getMessageKey b ∉ m.map Prod.fst)).filter
                (fun b => getMessageKey b ≠ getMessageKey x) := by
        rw [List.filter_filter]
        refine List.filter_congr ?_
        intro b _
        by_cases h1 : getMessageKey b ∈ m.map Prod.fst
        · have hL : (decide (getMessageKey b ∉ m.map Prod.fst ++ [getMessageKey x])) = false := by
            simp [h1]
          have hR : (decide (getMessageKey b ∉ m.map Prod.fst)) = false := by
            simp [h1]
          rw [hL, hR]
          simp
        · by_cases h2 : getMessageKey b = getMessageKey x
          · have hL : (decide (getMessageKey b ∉ m.map Prod.fst ++ [getMessageKey x])) = false := by
              simp [h2]
            have hR : (decide (getMessageKey b ≠ getMessageKey x)) = false := by
              simp [h2]
            rw [hL, hR]
            simp
          · have hL : (decide (getMessageKey b ∉ m.map Prod.fst ++ [getMessageKey x])) = true := by
              simp [h1, h2]
            have hR1 : (decide (getMessageKey b ∉ m.map Prod.fst)) = true := by
              simp [h1]
            have hR2 : (decide (getMessageKey b ≠ getMessageKey x)) = true := by
              simp [h2]
            rw [hL, hR1, hR2]
            rfl
      rw [hfilter]
      have hp : ∀ a b : ParsedMessage, getMessageKey a = getMessageKey b →
          (decide (getMessageKey a ≠ getMessageKey x) : Bool)
            = (decide (getMessageKey b ≠ getMessageKey x) : Bool) := by
        intro a b hab
        rw [hab]
      rw [specDedupBy_filter_inv getMessageKey _ hp
        (xs.filter (fun b => getMessageKey b ∉ m.map Prod.fst))]
      simp

theorem mergedMessagesOf_eq (res : List ConflictResolution) (all : List ParsedMessage) :
    mergedMessagesOf res all
      = ((all.foldl (fun m msg => addMessage m (getMessageKey msg) (toChatLabMessage msg))
          []).map Prod.snd).flatten.mergeSort (fun a b => a.timestamp ≤ b.timestamp) := by
  unfold mergedMessagesOf
  rw [foldl_mergeStep_messageMap]

theorem mergedMessagesOf_indep (res res2 : List ConflictResolution)
    (all : List ParsedMessage) : mergedMessagesOf res all = mergedMessagesOf res2 all := by
  rw [mergedMessagesOf_eq, mergedMessagesOf_eq]

theorem mergedMessagesOf_perm (res : List ConflictResolution) (all : List ParsedMessage) :
    (mergedMessagesOf res all).Perm
      ((specDedupBy getMessageKey all).map toChatLabMessage) := by
  rw [mergedMessagesOf_eq]
  refine (List.mergeSort_perm _ _).trans ?_
  have h := foldl_addMessage_flatten all [] (by intro p hp; simp at hp)
  rw [h]
  have hfilt : all.filter (fun x => getMessageKey x ∉ ([] : List (String × List ChatLabMessage)).map Prod.fst) = all := by
    refine List.filter_eq_self.2 ?_
    intro a _
    simp
  rw [hfilt]
  simp

theorem mergedMessagesOf_sorted (res : List ConflictResolution) (all : List ParsedMessage) :
    List.Pairwise (fun a b : ChatLabMessage => a.timestamp ≤ b.timestamp)
      (mergedMessagesOf res all) := by
  unfold mergedMessagesOf
  have h := @List.sorted_mergeSort ChatLabMessage
    (fun a b : ChatLabMessage => decide (a.timestamp ≤ b.timestamp))
    (by
      intro a b c hab hbc
      simp only [decide_eq_true_eq] at hab hbc ⊢
      exact le_trans hab hbc)
    (by
      intro a b
      simp only [Bool.or_eq_true, decide_eq_true_eq]
      exact Int.le_total a.timestamp b.timestamp)
    (((all.foldl (mergeStep res) ⟨[], []⟩).messageMap.map Prod.snd).flatten)
  refine h.imp ?_
  intro a b hab
  simpa using hab

theorem chatKey_toChatLabMessage (m : ParsedMessage) :
    chatKey (toChatLabMessage m) = getMessageKey m := rfl

theorem specDedupBy_keys_nodup {α κ : Type} [DecidableEq κ] (key : α → κ) :
    ∀ l : List α, ((specDedupBy key l).map key).Nodup := by
  intro l
  induction l with
  | nil => exact List.nodup_nil
  | cons a as ih =>
    rw [specDedupBy_cons, List.map_cons]
    refine List.nodup_cons.2 ⟨?_, ?_⟩
    · intro hmem
      rcases List.mem_map.1 hmem with ⟨b, hb, hkb⟩
      have := List.of_mem_filter hb
      simp only [ne_eq, decide_eq_true_eq] at this
      exact this hkb
    · exact (((specDedupBy key as).filter_sublist).map key).nodup ih

theorem mem_map_key_specDedupBy {α κ : Type} [DecidableEq κ] (key : α → κ) :
    ∀ (l : List α) (k : κ), k ∈ (specDedupBy key l).map key ↔ k ∈ l.map key := by
  intro l
  induction l with
  | nil => intro k; rfl
  | cons a as ih =>
    intro k
    rw [specDedupBy_cons, List.map_cons, List.map_cons]
    constructor
    · intro hk
      rcases List.mem_cons.1 hk with h | h
      · exact h ▸ List.mem_cons_self _ _
      · rcases List.mem_map.1 h with ⟨b, hb, hkb⟩
        refine List.mem_cons_of_mem _ ?_
        refine (ih k).1 ?_
        exact hkb ▸ List.mem_map_of_mem key (List.mem_of_mem_filter hb)
    · intro hk
      rcases List.mem_cons.1 hk with h | h
      · exact h ▸ List.mem_cons_self _ _
      · by_cases hka : k = key a
        · exact hka ▸ List.mem_cons_self _ _
        · rcases List.mem_map.1 ((ih k).2 h) with ⟨b, hb, hkb⟩
          refine List.mem_cons_of_mem _ (List.mem_map.2 ⟨b, ?_, hkb⟩)
          refine List.mem_filter.2 ⟨hb, ?_⟩
          simp only [ne_eq, decide_eq_true_eq]
          intro hba
          exact hka (hkb ▸ hba ▸ rfl)

theorem countP_eq_one_of_nodup_keys {α κ : Type} [DecidableEq κ] (key : α → κ) :
    ∀ (l : List α) (k : κ), (l.map key).Nodup →
      l.countP (fun x => key x = k) = if k ∈ l.map key then 1 else 0 := by
  intro l
  induction l with
  | nil => intro k _; simp
  | cons a as ih =>
    intro k hnd
    rw [List.map_cons] at hnd
    have hnd2 := (List.nodup_cons.1 hnd).2
    have hka := (List.nodup_cons.1 hnd).1
    rw [List.countP_cons, ih k hnd2, List.map_cons]
    by_cases h : key a = k
    · subst h
      rw [if_neg hka, if_pos (List.mem_cons_self _ _)]
      simp
    · have hd : (decide (key a = k)) = false := by simp [h]
      rw [hd]
      simp only [Bool.false_eq_true, if_false, Nat.add_zero]
      by_cases hmem : k ∈ as.map key
      · rw [if_pos hmem, if_pos (List.mem_cons_of_mem _ hmem)]
      · have hnmem : k ∉ key a :: as.map key := by
          intro hc
          rcases List.mem_cons.1 hc with hc | hc
          · exact h hc.symm
          · exact hmem hc
        rw [if_neg hmem, if_neg hnmem]

/-- C1: for every call to `mergeFiles`, whatever conflict resolutions
are supplied (including `keepBoth` ones), the merged message list
contains exactly one message per fingerprint — namely the first
occurrence of that fingerprint in source iteration order (files in
input order, messages in in-file order).  The fingerprint is the code's
`getMessageKey` string, the encoding of the (timestamp, sender platform
id, content length) triple, and equal triples always produce equal
fingerprint strings (last conjunct). -/
theorem mergeFiles_one_message_per_fingerprint (now : Int)
    (parse : String → Except String ParseResult) (params : MergeParams)
    (rs : List (ParseResult × String)) (data : ChatLabFormat)
    (h1 : params.filePaths.mapM (fun p => (parse p).map (fun r => (r, basename p)))
        = Except.ok rs)
    (h2 : mergeFiles now parse params = MergeResult.ok data) :
    data.messages.Perm
        ((specDedupBy getMessageKey ((rs.map (fun pr => pr.1.messages)).flatten)).map
          toChatLabMessage)
      ∧ (∀ k : String, data.messages.countP (fun c => chatKey c = k)
          = if k ∈ ((rs.map (fun pr => pr.1.messages)).flatten).map getMessageKey
            then 1 else 0)
      ∧ (∀ res2 : List ConflictResolution,
          mergeFiles now parse { params with conflictResolutions := res2 }
            = MergeResult.ok data)
      ∧ (∀ m1 m2 : ParsedMessage, fingerprint m1 = fingerprint m2 →
          getMessageKey m1 = getMessageKey m2) := by
  unfold mergeFiles at h2
  rw [h1] at h2
  cases rs with
  | nil => simp at h2
  | cons first rest =>
    simp only [MergeResult.ok.injEq] at h2
    subst h2
    dsimp only
    refine ⟨mergedMessagesOf_perm _ _, ?_, ?_, ?_⟩
    · intro k
      have hperm := mergedMessagesOf_perm params.conflictResolutions
        (((first :: rest).map (fun pr => pr.1.messages)).flatten)
      rw [hperm.countP_eq]
      rw [List.countP_map]
      have hnodup := specDedupBy_keys_nodup getMessageKey
        (((first :: rest).map (fun pr => pr.1.messages)).flatten)
      have hcount := countP_eq_one_of_nodup_keys getMessageKey
        (specDedupBy getMessageKey (((first :: rest).map (fun pr => pr.1.messages)).flatten))
        k hnodup
      have hpred : ((fun c => decide (chatKey c = k)) ∘ toChatLabMessage)
          = fun x => decide (getMessageKey x = k) := by
        funext x
        rfl
      rw [hpred, hcount]
      simp only [mem_map_key_specDedupBy]
    · intro res2
      unfold mergeFiles
      rw [show ({ params with conflictResolutions := res2 } : MergeParams).filePaths
          = params.filePaths from rfl, h1]
      dsimp only
      rw [mergedMessagesOf_indep res2 params.conflictResolutions]
    · intro m1 m2 h
      unfold fingerprint at h
      simp only [Prod.mk.injEq] at h
      unfold getMessageKey
      rw [h.1, h.2.1, h.2.2]

/-- The sample parse-oracle run over `wParams`, evaluated. -/
theorem wMap_eval :
    wParams.filePaths.mapM (fun p => (wParse p).map (fun r => (r, basename p)))
      = Except.ok [(wResult, "a")] := by decide

/-- The sample merge, evaluated: only the first of the two
equal-fingerprint messages survives. -/
theorem wMerge_eval : mergeFiles 0 wParse wParams = MergeResult.ok wData := by
  unfold mergeFiles
  rw [wMap_eval]
  dsimp only
  rw [mergedMessagesOf_eq]
  have hfold : ((((([(wResult, "a")].map (fun pr => pr.1.messages)).flatten)).foldl
      (fun m msg => addMessage m (getMessageKey msg) (toChatLabMessage msg)) []).map
        Prod.snd).flatten = [toChatLabMessage wMsgAb] := by decide
  rw [hfold, List.mergeSort_singleton]
  decide

/-- Witness for the C1 theorem: the sample merge of file "a" — whose
parse yields two different-content messages with the same fingerprint —
keeps exactly the first one, whatever the resolution list. -/
theorem mergeFiles_one_message_per_fingerprint_witness :
    (wParams.filePaths.mapM (fun p => (wParse p).map (fun r => (r, basename p)))
        = Except.ok [(wResult, "a")])
      ∧ (mergeFiles 0 wParse wParams = MergeResult.ok wData)
      ∧ (wData.messages.Perm
            ((specDedupBy getMessageKey
              (([(wResult, "a")].map (fun pr => pr.1.messages)).flatten)).map
                toChatLabMessage)
          ∧ (∀ k : String, wData.messages.countP (fun c => chatKey c = k)
              = if k ∈ (([(wResult, "a")].map (fun pr => pr.1.messages)).flatten).map
                  getMessageKey then 1 else 0)
          ∧ (∀ res2 : List ConflictResolution,
              mergeFiles 0 wParse { wParams with conflictResolutions := res2 }
                = MergeResult.ok wData)
          ∧ (∀ m1 m2 : ParsedMessage, fingerprint m1 = fingerprint m2 →
              getMessageKey m1 = getMessageKey m2)) :=
  ⟨wMap_eval, wMerge_eval,
    mergeFiles_one_message_per_fingerprint 0 wParse wParams [(wResult, "a")] wData
      wMap_eval wMerge_eval⟩

theorem toBatches_flatten {α : Type} (batchSize : Nat) (l : List α) :
    (toBatches batchSize l).flatten = l := by
  induction l using toBatches.induct batchSize with
  | case1 l h => rw [toBatches.eq_def, dif_pos h]; simp
  | case2 h => rw [toBatches.eq_def, dif_neg h]; rfl
  | case3 h x xs ih =>
    rw [toBatches.eq_def, dif_neg h]
    dsimp only
    rw [List.flatten_cons, ih]
    exact List.take_append_drop batchSize (x :: xs)

theorem legacyStep_messages (st : LegacyState) (r : LegacyMessage) :
    (legacyStep st r).messages = st.messages ++ (processMessage r).toList := by
  unfold legacyStep
  cases hres : resolveSenderId r.sender with
  | none =>
    have hpm : processMessage r = none := by
      unfold processMessage
      rw [hres]
    rw [hpm]
    simp
  | some pid =>
    cases hpm : processMessage r with
    | none => simp
    | some parsed => simp

theorem foldl_legacyStep_messages :
    ∀ (records : List LegacyMessage) (st : LegacyState),
      (records.foldl legacyStep st).messages
        = st.messages ++ records.filterMap processMessage := by
  intro records
  induction records with
  | nil => intro st; simp
  | cons r rest ih =>
    intro st
    simp only [List.foldl_cons, List.filterMap_cons]
    rw [ih, legacyStep_messages]
    cases processMessage r with
    | none => simp
    | some parsed => simp

theorem runLegacy_messages (records : List LegacyMessage) :
    (runLegacy records).messages = records.filterMap processMessage := by
  unfold runLegacy
  dsimp only
  rw [foldl_legacyStep_messages]
  rfl

/-- C2 counterexample: the streaming parser emits messages in file
order without sorting, so over a file whose (valid) records appear in
decreasing timestamp order the concatenation of the emitted batches is
not non-decreasing by timestamp. -/
theorem parser_batches_not_sorted_counterexample :
    ¬ List.Pairwise (fun a b : ParsedMessage => a.timestamp ≤ b.timestamp)
        ((toBatches 5000 (runLegacy [wRecLate, wRecEarly]).messages).flatten) := by
  rw [toBatches_flatten]
  decide

/-- C2 amended: the merged message list written by `mergeFiles` is
non-decreasing by timestamp; the concatenation of the batches a
streaming parser yields equals the surviving records in in-file order
(no sort is applied), so it is non-decreasing exactly when the file's
surviving records already are. -/
theorem merged_sorted_and_parser_preserves_file_order (now : Int)
    (parse : String → Except String ParseResult) (params : MergeParams)
    (data : ChatLabFormat)
    (h : mergeFiles now parse params = MergeResult.ok data)
    (batchSize : Nat) (records : List LegacyMessage) :
    List.Pairwise (fun a b : ChatLabMessage => a.timestamp ≤ b.timestamp) data.messages
      ∧ (toBatches batchSize (runLegacy records).messages).flatten
          = records.filterMap processMessage := by
  constructor
  · unfold mergeFiles at h
    cases hm : params.filePaths.mapM (fun p => (parse p).map (fun r => (r, basename p))) with
    | error e => rw [hm] at h; simp at h
    | ok rs =>
      rw [hm] at h
      cases rs with
      | nil => simp at h
      | cons first rest =>
        simp only [MergeResult.ok.injEq] at h
        subst h
        dsimp only
        exact mergedMessagesOf_sorted _ _
  · rw [toBatches_flatten, runLegacy_messages]

/-- Witness for the C2 amended theorem at the sample merge and a
two-record legacy file. -/
theorem merged_sorted_and_parser_preserves_file_order_witness :
    (mergeFiles 0 wParse wParams = MergeResult.ok wData)
      ∧ (List.Pairwise (fun a b : ChatLabMessage => a.timestamp ≤ b.timestamp) wData.messages
        ∧ (toBatches 5000 (runLegacy [wRecLate, wRecEarly]).messages).flatten
            = [wRecLate, wRecEarly].filterMap processMessage) :=
  ⟨wMerge_eval,
    merged_sorted_and_parser_preserves_file_order 0 wParse wParams wData wMerge_eval
      5000 [wRecLate, wRecEarly]⟩

theorem processMessage_some (r : LegacyMessage) (m : ParsedMessage)
    (h : processMessage r = some m) :
    resolveSenderId r.sender = some m.senderPlatformId
      ∧ (∀ ts, parseTimestamp r.timestamp = some ts → isValidYear ts = true) := by
  unfold processMessage at h
  cases hres : resolveSenderId r.sender with
  | none => rw [hres] at h; exact absurd h (by simp)
  | some pid =>
    rw [hres] at h
    dsimp only [parseTimestamp] at h
    by_cases hv : isValidYear (r.timestamp / 1000) = true
    · rw [if_neg (by simp [hv])] at h
      have hm : m.senderPlatformId = pid := by
        injection h with h2
        rw [← h2]
      constructor
      · rw [hm]
      · intro ts hts
        dsimp only [parseTimestamp] at hts
        have hts2 : ts = r.timestamp / 1000 := by
          injection hts with h2
          exact h2.symm
        rw [hts2]
        exact hv
    · rw [if_pos (by simpa using hv)] at h
      exact absurd h (by simp)

theorem mem_fst_jsMapSet {κ ν : Type} [DecidableEq κ] :
    ∀ (m : List (κ × ν)) (k k2 : κ) (v : ν),
      k2 ∈ (jsMapSet m k v).map Prod.fst ↔ (k2 ∈ m.map Prod.fst ∨ k2 = k) := by
  intro m
  induction m with
  | nil =>
    intro k k2 v
    simp [jsMapSet]
  | cons p rest ih =>
    intro k k2 v
    obtain ⟨k0, v0⟩ := p
    by_cases h0 : k0 = k
    · subst h0
      simp only [jsMapSet, if_pos, List.map_cons, List.mem_cons]
      tauto
    · simp only [jsMapSet, if_neg h0, List.map_cons, List.mem_cons, ih]
      tauto

theorem mem_jsMapSet {κ ν : Type} [DecidableEq κ] :
    ∀ (m : List (κ × ν)) (k : κ) (v : ν) (p : κ × ν),
      p ∈ jsMapSet m k v → p ∈ m ∨ p = (k, v) := by
  intro m
  induction m with
  | nil =>
    intro k v p hp
    simp only [jsMapSet, List.mem_singleton] at hp
    exact Or.inr hp
  | cons q rest ih =>
    intro k v p hp
    obtain ⟨k0, v0⟩ := q
    by_cases h0 : k0 = k
    · subst h0
      simp only [jsMapSet, if_pos] at hp
      rcases List.mem_cons.1 hp with hc | hc
      · exact Or.inr hc
      · exact Or.inl (List.mem_cons_of_mem _ hc)
    · simp only [jsMapSet, if_neg h0] at hp
      rcases List.mem_cons.1 hp with hc | hc
      · exact Or.inl (hc ▸ List.mem_cons_self _ _)
      · rcases ih k v p hc with hc2 | hc2
        · exact Or.inl (List.mem_cons_of_mem _ hc2)
        · exact Or.inr hc2

theorem legacyStep_memberMap (st : LegacyState) (r : LegacyMessage) :
    (legacyStep st r).memberMap
      = match resolveSenderId r.sender with
        | none => st.memberMap
        | some pid =>
          jsMapSet st.memberMap pid
            ⟨pid, if r.sender.name ≠ "" then r.sender.name else pid⟩ := by
  unfold legacyStep
  cases hres : resolveSenderId r.sender with
  | none => rfl
  | some pid =>
    cases hpm : processMessage r with
    | none => rfl
    | some parsed => rfl

theorem foldl_legacyStep_memberMap_keys :
    ∀ (records : List LegacyMessage) (st : LegacyState) (pid : String),
      pid ∈ ((records.foldl legacyStep st).memberMap.map Prod.fst)
        ↔ (pid ∈ st.memberMap.map Prod.fst
            ∨ ∃ r ∈ records, resolveSenderId r.sender = some pid) := by
  intro records
  induction records with
  | nil => intro st pid; simp
  | cons r rest ih =>
    intro st pid
    simp only [List.foldl_cons]
    rw [ih, legacyStep_memberMap]
    cases hres : resolveSenderId r.sender with
    | none =>
      simp only [List.exists_mem_cons_iff, hres]
      constructor
      · intro hc
        rcases hc with hc | hc
        · exact Or.inl hc
        · exact Or.inr (Or.inr hc)
      · intro hc
        rcases hc with hc | hc | hc
        · exact Or.inl hc
        · exact absurd hc (by simp)
        · exact Or.inr hc
    | some pid0 =>
      simp only [mem_fst_jsMapSet, List.exists_mem_cons_iff, hres, Option.some.injEq]
      constructor
      · intro hc
        rcases hc with (hc | hc) | hc
        · exact Or.inl hc
        · exact Or.inr (Or.inl hc.symm)
        · exact Or.inr (Or.inr hc)
      · intro hc
        rcases hc with hc | hc | hc
        · exact Or.inl (Or.inl hc)
        · exact Or.inl (Or.inr hc.symm)
        · exact Or.inr hc

theorem foldl_legacyStep_memberMap_inv :
    ∀ (records : List LegacyMessage) (st : LegacyState),
      (∀ p ∈ st.memberMap, p.2.platformId = p.1) →
      ∀ p ∈ (records.foldl legacyStep st).memberMap, p.2.platformId = p.1 := by
  intro records
  induction records with
  | nil => intro st hinv; exact hinv
  | cons r rest ih =>
    intro st hinv
    simp only [List.foldl_cons]
    refine ih (legacyStep st r) ?_
    intro p hp
    rw [legacyStep_memberMap] at hp
    cases hres : resolveSenderId r.sender with
    | none =>
      rw [hres] at hp
      exact hinv p hp
    | some pid0 =>
      rw [hres] at hp
      rcases mem_jsMapSet _ _ _ _ hp with hc | hc
      · exact hinv p hc
      · rw [hc]

/-- C6: a record whose resolved timestamp's year is before 2000, or
whose sender identifier cannot be resolved (neither `uin` nor `uid`
populated), produces no emitted message and is skipped silently: the
parser's output (a total function — no error event is involved) over
the file is the same as over the file with that record removed, so all
other records are still processed. -/
theorem defective_record_dropped_silently (pre post : List LegacyMessage) (r : LegacyMessage)
    (h : resolveSenderId r.sender = none
        ∨ (∃ ts, parseTimestamp r.timestamp = some ts ∧ isValidYear ts = false)) :
    processMessage r = none
      ∧ (runLegacy (pre ++ r :: post)).messages = (runLegacy (pre ++ post)).messages := by
  have hnone : processMessage r = none := by
    unfold processMessage
    cases hres : resolveSenderId r.sender with
    | none => rfl
    | some pid =>
      rcases h with h | h
      · rw [hres] at h
        exact absurd h (by simp)
      · rcases h with ⟨ts, hts, hbad⟩
        dsimp only [parseTimestamp] at hts ⊢
        have hts2 : r.timestamp / 1000 = ts := by
          injection hts
        rw [if_pos ?_]
        rw [hts2, hbad]
        simp
  refine ⟨hnone, ?_⟩
  rw [runLegacy_messages, runLegacy_messages, List.filterMap_append, List.filterMap_append,
    List.filterMap_cons, hnone]

/-- Witness for the C6 theorem: a record whose millisecond timestamp
resolves to the year 1970 is dropped while its neighbours survive. -/
theorem defective_record_dropped_silently_witness :
    (resolveSenderId wRecBadTs.sender = none
        ∨ (∃ ts, parseTimestamp wRecBadTs.timestamp = some ts ∧ isValidYear ts = false))
      ∧ (processMessage wRecBadTs = none
        ∧ (runLegacy ([wRecLate] ++ wRecBadTs :: [wRecEarly])).messages
            = (runLegacy ([wRecLate] ++ [wRecEarly])).messages) :=
  ⟨Or.inr ⟨1, by decide, by decide⟩,
    defective_record_dropped_silently [wRecLate] [wRecEarly] wRecBadTs
      (Or.inr ⟨1, by decide, by decide⟩)⟩

/-- C10: the member map is updated as soon as a record's sender id
resolves — before the timestamp validity check — so a sender whose only
records carry invalid (pre-2000) timestamps still appears in the
`members` event and is counted by the `done` event's `memberCount`,
although no emitted message carries that sender. -/
theorem invalid_timestamp_sender_still_counted (records : List LegacyMessage) (pid : String)
    (h1 : ∃ r ∈ records, resolveSenderId r.sender = some pid)
    (h2 : ∀ r ∈ records, resolveSenderId r.sender = some pid →
        ∀ ts, parseTimestamp r.timestamp = some ts → isValidYear ts = false) :
    (∃ mem ∈ (runLegacy records).members, mem.platformId = pid)
      ∧ (∀ m ∈ (runLegacy records).messages, m.senderPlatformId ≠ pid)
      ∧ (runLegacy records).memberCount = (runLegacy records).members.length := by
  refine ⟨?_, ?_, ?_⟩
  · have hkey : pid ∈ ((records.foldl legacyStep ⟨[], []⟩).memberMap.map Prod.fst) := by
      rw [foldl_legacyStep_memberMap_keys]
      exact Or.inr h1
    rcases List.mem_map.1 hkey with ⟨p, hp, hp1⟩
    have hinv := foldl_legacyStep_memberMap_inv records ⟨[], []⟩ (by intro p hp; simp at hp) p hp
    refine ⟨p.2, ?_, ?_⟩
    · exact List.mem_map_of_mem Prod.snd hp
    · rw [hinv, hp1]
  · intro m hm hpid
    rw [runLegacy_messages] at hm
    rcases List.mem_filterMap.1 hm with ⟨r, hr, hpm⟩
    have hsome := processMessage_some r m hpm
    have hres : resolveSenderId r.sender = some pid := by
      rw [hsome.1, hpid]
    have hbad := h2 r hr hres (r.timestamp / 1000) rfl
    have hgood := hsome.2 (r.timestamp / 1000) rfl
    rw [hgood] at hbad
    exact absurd hbad (by simp)
  · unfold runLegacy
    dsimp only
    rw [List.length_map]

/-- Witness for the C10 theorem: sender u2 appears only in a record
whose timestamp year is 1970; u2 is still a member and counted, with no
message attributed to it. -/
theorem invalid_timestamp_sender_still_counted_witness :
    (∃ r ∈ [wRecLate, wRecBadTs], resolveSenderId r.sender = some "u2")
      ∧ ((∃ mem ∈ (runLegacy [wRecLate, wRecBadTs]).members, mem.platformId = "u2")
        ∧ (∀ m ∈ (runLegacy [wRecLate, wRecBadTs]).messages, m.senderPlatformId ≠ "u2")
        ∧ (runLegacy [wRecLate, wRecBadTs]).memberCount
            = (runLegacy [wRecLate, wRecBadTs]).members.length) :=
  ⟨⟨wRecBadTs, by decide, by decide⟩,
    invalid_timestamp_sender_still_counted [wRecLate, wRecBadTs] "u2"
      ⟨wRecBadTs, by decide, by decide⟩
      (by
        intro r hr hres ts hts
        rcases List.mem_cons.1 hr with hr | hr
        · subst hr
          exact absurd hres (by decide)
        · rcases List.mem_cons.1 hr with hr | hr
          · subst hr
            have : ts = (1 : Int) := by
              rw [show parseTimestamp wRecBadTs.timestamp = some 1 from by decide] at hts
              injection hts with h
              exact h.symm
            rw [this]
            decide
          · exact absurd hr (List.not_mem_nil r))⟩

/-- C8, evaluation at the failing input: `getAdjustedDate` reads the
hour with local-time `getHours()` but prints the date with UTC
`toISOString()`.  On a UTC+8 host (offset 28800 s, the timezone this
app ships to), the instant 1704056340 — local 2024-01-01 04:59 (day
index 19723, seconds-of-day 17940) — is attributed to UTC day 19721
(2023-12-30), not to the previous local calendar day 19722 (2023-12-31)
required by the claim.  With a zero offset (local = UTC) the code does
behave as claimed: before 05:00 the previous day, at or after 05:00 the
own day. -/
theorem night_owl_day_boundary_bug :
    (localSecondsOfDay 28800 1704056340 = 17940
      ∧ getAdjustedDate 28800 1704056340 = 19721
      ∧ localDayIndex 28800 1704056340 = 19723
      ∧ getAdjustedDate 28800 1704056340 ≠ localDayIndex 28800 1704056340 - 1)
      ∧ (∀ ts : Int,
          (localSecondsOfDay 0 ts < 18000 →
            getAdjustedDate 0 ts = localDayIndex 0 ts - 1)
          ∧ (18000 ≤ localSecondsOfDay 0 ts →
            getAdjustedDate 0 ts = localDayIndex 0 ts)) := by
  constructor
  · exact ⟨by decide, by decide, by decide, by decide⟩
  · intro ts
    unfold getAdjustedDate localDayIndex localSecondsOfDay
    dsimp only
    constructor
    · intro h
      split_ifs with h5
      · omega
      · omega
    · intro h
      split_ifs with h5
      · omega
      · omega

theorem lookup_jsMapSet_self {κ ν : Type} [DecidableEq κ] :
    ∀ (m : List (κ × ν)) (k : κ) (v : ν), (jsMapSet m k v).lookup k = some v := by
  intro m
  induction m with
  | nil => intro k v; simp [jsMapSet, List.lookup]
  | cons p rest ih =>
    intro k v
    obtain ⟨k0, v0⟩ := p
    by_cases h0 : k0 = k
    · subst h0
      simp [jsMapSet, List.lookup]
    · have hbeq : (k == k0) = false := by
        simp only [beq_eq_false_iff_ne, ne_eq]
        exact fun hc => h0 hc.symm
      simp [jsMapSet, h0, List.lookup, hbeq, ih]

/-- C9 counterexample: for messages from one sender at t = 0, 100, 200,
250 (gaps ≤ 300 s) the single counted streak has length 4, which the
code buckets into the low tier (3–4): midStreak stays 0, contradicting
the claim's "streak of length 4 in the mid tier". -/
theorem monologue_mid_tier_counterexample :
    ((monoScan [⟨1, 0, "x", "X"⟩, ⟨1, 100, "x", "X"⟩, ⟨1, 200, "x", "X"⟩,
          ⟨1, 250, "x", "X"⟩]).memberStats.lookup 1).map MonoStats.midStreak = some 0
      ∧ ((monoScan [⟨1, 0, "x", "X"⟩, ⟨1, 100, "x", "X"⟩, ⟨1, 200, "x", "X"⟩,
          ⟨1, 250, "x", "X"⟩]).memberStats.lookup 1).map MonoStats.lowStreak = some 1 := by
  constructor
  · decide
  · decide

/-- C9 amended: consecutive same-sender messages with gaps ≤ 300 s form
one streak; a streak counts only when its length is ≥ 3, bucketed low
(3–4), mid (5–9), high (≥ 10).  The four X messages at t = 0, 100, 200,
250 form one counted streak of length 4 in the LOW tier; inserting Y at
t = 120 splits the run into two length-2 streaks and nothing is
counted. -/
theorem monologue_streak_rule (st : MonoState) :
    ((monoScan [⟨1, 0, "x", "X"⟩, ⟨1, 100, "x", "X"⟩, ⟨1, 200, "x", "X"⟩,
          ⟨1, 250, "x", "X"⟩]).memberStats.lookup 1
        = some ⟨1, 4, 1, 0, 0⟩)
      ∧ ((monoScan [⟨1, 0, "x", "X"⟩, ⟨1, 100, "x", "X"⟩, ⟨2, 120, "y", "Y"⟩,
          ⟨1, 200, "x", "X"⟩, ⟨1, 250, "x", "X"⟩]).memberStats = [])
      ∧ (st.currentStreak.count < 3 → finishStreak st = st)
      ∧ (3 ≤ st.currentStreak.count → st.currentStreak.count ≤ 4 →
          ((finishStreak st).memberStats.lookup st.currentStreak.senderId).map
              MonoStats.lowStreak
            = some (((st.memberStats.lookup st.currentStreak.senderId).getD
                ⟨0, 0, 0, 0, 0⟩).lowStreak + 1))
      ∧ (5 ≤ st.currentStreak.count → st.currentStreak.count ≤ 9 →
          ((finishStreak st).memberStats.lookup st.currentStreak.senderId).map
              MonoStats.midStreak
            = some (((st.memberStats.lookup st.currentStreak.senderId).getD
                ⟨0, 0, 0, 0, 0⟩).midStreak + 1))
      ∧ (10 ≤ st.currentStreak.count →
          ((finishStreak st).memberStats.lookup st.currentStreak.senderId).map
              MonoStats.highStreak
            = some (((st.memberStats.lookup st.currentStreak.senderId).getD
                ⟨0, 0, 0, 0, 0⟩).highStreak + 1)) := by
  refine ⟨by decide, by decide, ?_, ?_, ?_, ?_⟩
  · intro h
    unfold finishStreak
    rw [if_neg (by omega)]
  · intro h3 h4
    unfold finishStreak
    rw [if_pos (by omega)]
    dsimp only
    rw [if_neg (by omega), if_neg (by omega)]
    rw [lookup_jsMapSet_self]
    rfl
  · intro h5 h9
    unfold finishStreak
    rw [if_pos (by omega)]
    dsimp only
    rw [if_neg (by omega), if_pos (by omega)]
    rw [lookup_jsMapSet_self]
    rfl
  · intro h10
    unfold finishStreak
    rw [if_pos (by omega)]
    dsimp only
    rw [if_pos (by omega)]
    rw [lookup_jsMapSet_self]
    rfl

/-- Witness for the C9 amended theorem at streak lengths 2, 4, 7
and 12. -/
theorem monologue_streak_rule_witness :
    ((⟨[], [], none, ⟨1, 2, 0, 100⟩⟩ : MonoState).currentStreak.count < 3
        ∧ finishStreak ⟨[], [], none, ⟨1, 2, 0, 100⟩⟩ = ⟨[], [], none, ⟨1, 2, 0, 100⟩⟩)
      ∧ (3 ≤ (⟨[], [], none, ⟨1, 4, 0, 250⟩⟩ : MonoState).currentStreak.count
        ∧ ((finishStreak ⟨[], [], none, ⟨1, 4, 0, 250⟩⟩).memberStats.lookup 1).map
            MonoStats.lowStreak = some 1)
      ∧ (((finishStreak ⟨[], [], none, ⟨1, 7, 0, 250⟩⟩).memberStats.lookup 1).map
            MonoStats.midStreak = some 1)
      ∧ (((finishStreak ⟨[], [], none, ⟨1, 12, 0, 250⟩⟩).memberStats.lookup 1).map
            MonoStats.highStreak = some 1) := by
  refine ⟨⟨by decide, ?_⟩, ⟨by decide, ?_⟩, ?_, ?_⟩
  · exact (monologue_streak_rule ⟨[], [], none, ⟨1, 2, 0, 100⟩⟩).2.2.1 (by decide)
  · have h := (monologue_streak_rule ⟨[], [], none, ⟨1, 4, 0, 250⟩⟩).2.2.2.1
      (by decide) (by decide)
    simpa using h
  · have h := (monologue_streak_rule ⟨[], [], none, ⟨1, 7, 0, 250⟩⟩).2.2.2.2.1
      (by decide) (by decide)
    simpa using h
  · have h := (monologue_streak_rule ⟨[], [], none, ⟨1, 12, 0, 250⟩⟩).2.2.2.2.2
      (by decide)
    simpa using h

/-- C7: a chain entry is appended only when the new message's trimmed
content equals the current chain content AND its sender differs from
the last entry's sender, and a chain flushed with length < 3 yields no
credit.  For [A:"hi", B:"hi", A:"hi"] the chain reaches length 3 with
originator A at position 0 and initiator B at position 1, producing one
counted chain; for [A:"hi", A:"hi", B:"hi"] the second A does not
extend the chain (still length 1 after it), the final length reached is
only 2, and no credit of any kind is produced. -/
theorem repeat_chain_rule :
    ((([⟨1, "hi", 10, "a", "A"⟩, ⟨2, "hi", 20, "b", "B"⟩, ⟨1, "hi", 30, "a", "A"⟩] :
          List RepeatRow).foldl repeatStep initRepeatState).repeatChain
        = [⟨1, "hi", 10⟩, ⟨2, "hi", 20⟩, ⟨1, "hi", 30⟩])
      ∧ (repeatScan [⟨1, "hi", 10, "a", "A"⟩, ⟨2, "hi", 20, "b", "B"⟩,
          ⟨1, "hi", 30, "a", "A"⟩]).totalRepeatChains = 1
      ∧ (repeatScan [⟨1, "hi", 10, "a", "A"⟩, ⟨2, "hi", 20, "b", "B"⟩,
          ⟨1, "hi", 30, "a", "A"⟩]).originatorCount = [(1, 1)]
      ∧ (repeatScan [⟨1, "hi", 10, "a", "A"⟩, ⟨2, "hi", 20, "b", "B"⟩,
          ⟨1, "hi", 30, "a", "A"⟩]).initiatorCount = [(2, 1)]
      ∧ (repeatScan [⟨1, "hi", 10, "a", "A"⟩, ⟨2, "hi", 20, "b", "B"⟩,
          ⟨1, "hi", 30, "a", "A"⟩]).chainLengthCount = [(3, 1)]
      ∧ ((([⟨1, "hi", 10, "a", "A"⟩, ⟨1, "hi", 20, "a", "A"⟩] :
          List RepeatRow).foldl repeatStep initRepeatState).repeatChain
        = [⟨1, "hi", 10⟩])
      ∧ ((([⟨1, "hi", 10, "a", "A"⟩, ⟨1, "hi", 20, "a", "A"⟩, ⟨2, "hi", 30, "b", "B"⟩] :
          List RepeatRow).foldl repeatStep initRepeatState).repeatChain
        = [⟨1, "hi", 10⟩, ⟨2, "hi", 30⟩])
      ∧ (repeatScan [⟨1, "hi", 10, "a", "A"⟩, ⟨1, "hi", 20, "a", "A"⟩,
          ⟨2, "hi", 30, "b", "B"⟩]).totalRepeatChains = 0
      ∧ (repeatScan [⟨1, "hi", 10, "a", "A"⟩, ⟨1, "hi", 20, "a", "A"⟩,
          ⟨2, "hi", 30, "b", "B"⟩]).originatorCount = []
      ∧ (repeatScan [⟨1, "hi", 10, "a", "A"⟩, ⟨1, "hi", 20, "a", "A"⟩,
          ⟨2, "hi", 30, "b", "B"⟩]).initiatorCount = []
      ∧ (repeatScan [⟨1, "hi", 10, "a", "A"⟩, ⟨1, "hi", 20, "a", "A"⟩,
          ⟨2, "hi", 30, "b", "B"⟩]).chainLengthCount = [] := by
  decide

theorem mapM_detect_ok (detect : String → Option String) :
    ∀ (paths : List String), (∀ p ∈ paths, (detect p).isSome) →
      (paths.mapM (fun p =>
          match detect p with
          | some f => Except.ok f
          | none => Except.error (unrecognizedFormatMessage p))
        : Except String (List String)) = Except.ok (paths.filterMap detect) := by
  intro paths
  induction paths with
  | nil => intro _; rfl
  | cons p rest ih =>
    intro h
    rw [List.mapM_cons, ih (fun q hq => h q (List.mem_cons_of_mem _ hq))]
    cases hd : detect p with
    | none =>
      have := h p (List.mem_cons_self _ _)
      rw [hd] at this
      simp at this
    | some f =>
      rw [List.filterMap_cons, hd]
      rfl

theorem infix_joinSep (sep : String) :
    ∀ (l : List String), ∀ f ∈ l, f.data <:+: (joinSep sep l).data := by
  intro l
  induction l with
  | nil => intro f hf; simp at hf
  | cons x xs ih =>
    intro f hf
    rcases List.mem_cons.1 hf with hf | hf
    · subst hf
      cases xs with
      | nil => exact List.infix_refl _
      | cons y ys =>
        refine ⟨[], (sep ++ joinSep sep (y :: ys)).data, ?_⟩
        show f.data ++ (sep ++ joinSep sep (y :: ys)).data = (joinSep sep (f :: y :: ys)).data
        rw [show joinSep sep (f :: y :: ys) = f ++ sep ++ joinSep sep (y :: ys) from rfl]
        simp
    · cases xs with
      | nil => simp at hf
      | cons y ys =>
        rcases ih f hf with ⟨s, t, hst⟩
        refine ⟨(x ++ sep).data ++ s, t, ?_⟩
        rw [show joinSep sep (x :: y :: ys) = x ++ sep ++ joinSep sep (y :: ys) from rfl]
        simp only [String.data_append, List.append_assoc]
        rw [← hst]
        simp [List.append_assoc]

theorem infix_formatMismatchMessage (fmts : List String) :
    ∀ f ∈ fmts, f.data <:+: (formatMismatchMessage fmts).data := by
  intro f hf
  rcases infix_joinSep "、" fmts f hf with ⟨s, t, hst⟩
  unfold formatMismatchMessage
  refine ⟨"不支持合并不同格式的聊天记录。\n检测到的格式：".data ++ s,
    t ++ "\n请确保所有文件使用相同的导出工具和格式。".data, ?_⟩
  simp only [String.data_append, List.append_assoc]
  rw [← hst]
  simp [List.append_assoc]

/-- C4: when the input files of `checkConflicts` sniff to two or more
distinct formats, the call throws the format-mismatch error before any
file is parsed: the error message interpolates the deduplicated list of
detected formats (every distinct format name occurs in it as a
substring), and the outcome is the same for every parse oracle. -/
theorem checkConflicts_format_mismatch (detect : String → Option String)
    (parse parse2 : String → Except String ParseResult) (filePaths : List String)
    (hdet : ∀ p ∈ filePaths, (detect p).isSome)
    (hmis : 1 < (specDedupBy id (filePaths.filterMap detect)).length) :
    checkConflicts detect parse filePaths
        = Except.error (formatMismatchMessage (specDedupBy id (filePaths.filterMap detect)))
      ∧ checkConflicts detect parse filePaths = checkConflicts detect parse2 filePaths
      ∧ (∀ f ∈ filePaths.filterMap detect,
          f.data <:+:
            (formatMismatchMessage (specDedupBy id (filePaths.filterMap detect))).data) := by
  have hmain : ∀ parse3 : String → Except String ParseResult,
      checkConflicts detect parse3 filePaths
        = Except.error (formatMismatchMessage (specDedupBy id (filePaths.filterMap detect))) := by
    intro parse3
    unfold checkConflicts
    rw [mapM_detect_ok detect filePaths hdet]
    dsimp only
    rw [if_pos hmis]
  refine ⟨hmain parse, (hmain parse).trans (hmain parse2).symm, ?_⟩
  intro f hf
  exact infix_formatMismatchMessage _ f ((mem_specDedupBy_id _ f).2 hf)

/-- Witness for the C4 theorem: files "a" and "b" sniffing to formats
Alpha and Beta. -/
theorem checkConflicts_format_mismatch_witness :
    (∀ p ∈ ["a", "b"],
        ((fun q => if q = "a" then some "Alpha" else some "Beta") p : Option String).isSome)
      ∧ (1 < (specDedupBy id (["a", "b"].filterMap
          (fun q => if q = "a" then some "Alpha" else some "Beta"))).length)
      ∧ (checkConflicts (fun q => if q = "a" then some "Alpha" else some "Beta")
            wParse ["a", "b"]
          = Except.error (formatMismatchMessage (specDedupBy id (["a", "b"].filterMap
              (fun q => if q = "a" then some "Alpha" else some "Beta"))))
        ∧ checkConflicts (fun q => if q = "a" then some "Alpha" else some "Beta")
            wParse ["a", "b"]
          = checkConflicts (fun q => if q = "a" then some "Alpha" else some "Beta")
            wParse2 ["a", "b"]
        ∧ (∀ f ∈ ["a", "b"].filterMap
              (fun q => if q = "a" then some "Alpha" else some "Beta"),
            f.data <:+: (formatMismatchMessage (specDedupBy id (["a", "b"].filterMap
              (fun q => if q = "a" then some "Alpha" else some "Beta")))).data)) :=
  ⟨by decide, by decide,
    checkConflicts_format_mismatch (fun q => if q = "a" then some "Alpha" else some "Beta")
      wParse wParse2 ["a", "b"] (by decide) (by decide)⟩

/-- C3 counterexample: `checkConflicts` has no try/catch boundary — on
two files sniffing to different formats it throws (an `Except.error`,
i.e. a rejected promise at the caller) instead of returning a
structured success/failure value, refuting "neither operation ever
propagates an exception to the caller". -/
theorem checkConflicts_throws_counterexample :
    checkConflicts (fun q => if q = "b" then some "Beta" else some "Alpha")
        wParse2 ["a", "b"]
      = Except.error (formatMismatchMessage ["Alpha", "Beta"]) := by
  decide

/-- C3 amended: `mergeFiles` wraps its whole body in try/catch and
converts any failure (here: a failing parse) into the structured
`{success: false, error}` result, while `checkConflicts` propagates
failures to the caller as thrown exceptions (`Except.error`) — both the
format errors and any parse failure. -/
theorem mergeFiles_catches_checkConflicts_throws (now : Int)
    (parse : String → Except String ParseResult) (params : MergeParams) (e : String)
    (detect : String → Option String) (filePaths : List String) (fmts : List String)
    (e2 : String)
    (h1 : params.filePaths.mapM (fun p => (parse p).map (fun r => (r, basename p)))
        = Except.error e)
    (h2 : (filePaths.mapM (fun p =>
        match detect p with
        | some f => Except.ok f
        | none => Except.error (unrecognizedFormatMessage p))
        : Except String (List String)) = Except.ok fmts)
    (h3 : ¬ 1 < (specDedupBy id fmts).length)
    (h4 : filePaths.mapM (fun p => (parse p).map (fun r => (r, basename p)))
        = Except.error e2) :
    mergeFiles now parse params = MergeResult.fail e
      ∧ checkConflicts detect parse filePaths = Except.error e2 := by
  constructor
  · unfold mergeFiles
    rw [h1]
  · unfold checkConflicts
    rw [h2]
    dsimp only
    rw [if_neg h3, h4]

/-- Witness for the C3 amended theorem: parsing "b" throws "boom";
`mergeFiles` over ["a", "b"] returns the structured failure while
`checkConflicts` propagates the error. -/
theorem mergeFiles_catches_checkConflicts_throws_witness :
    ((⟨["a", "b"], "out", none, [], false⟩ : MergeParams).filePaths.mapM
        (fun p => (((fun q => if q = "a" then Except.ok wResult else Except.error "boom") :
            String → Except String ParseResult) p).map (fun r => (r, basename p)))
        = Except.error "boom")
      ∧ (mergeFiles 0 (fun q => if q = "a" then Except.ok wResult else Except.error "boom")
            ⟨["a", "b"], "out", none, [], false⟩ = MergeResult.fail "boom"
        ∧ checkConflicts (fun _ => some "Alpha")
            (fun q => if q = "a" then Except.ok wResult else Except.error "boom") ["a", "b"]
          = Except.error "boom") :=
  ⟨by decide,
    mergeFiles_catches_checkConflicts_throws 0
      (fun q => if q = "a" then Except.ok wResult else Except.error "boom")
      ⟨["a", "b"], "out", none, [], false⟩ "boom" (fun _ => some "Alpha") ["a", "b"]
      ["Alpha", "Alpha"] "boom" (by decide) (by decide) (by decide) (by decide)⟩

theorem mem_uniqueKeySet_fold :
    ∀ (l : List SourcedMessage) (s : List String) (x : String),
      x ∈ l.foldl (fun s2 it => if s2.contains (getMessageKey it.msg) then s2
          else s2 ++ [getMessageKey it.msg]) s
        ↔ (x ∈ s ∨ x ∈ l.map (fun it => getMessageKey it.msg)) := by
  intro l
  induction l with
  | nil => intro s x; simp
  | cons it rest ih =>
    intro s x
    simp only [List.foldl_cons, List.map_cons, List.mem_cons]
    by_cases hc : getMessageKey it.msg ∈ s
    · rw [if_pos (by simpa [List.contains, List.elem_eq_mem] using hc), ih]
      constructor
      · intro h
        rcases h with h | h
        · exact Or.inl h
        · exact Or.inr (Or.inr h)
      · intro h
        rcases h with h | h | h
        · exact Or.inl h
        · exact Or.inl (h ▸ hc)
        · exact Or.inr h
    · rw [if_neg (by simpa [List.contains, List.elem_eq_mem] using hc), ih]
      simp only [List.mem_append, List.mem_singleton]
      tauto

theorem uniqueKeySet_fold_noop :
    ∀ (l : List SourcedMessage) (s : List String),
      (∀ it ∈ l, getMessageKey it.msg ∈ s) →
      l.foldl (fun s2 it => if s2.contains (getMessageKey it.msg) then s2
          else s2 ++ [getMessageKey it.msg]) s = s := by
  intro l
  induction l with
  | nil => intro s _; rfl
  | cons it rest ih =>
    intro s h
    simp only [List.foldl_cons]
    have hmem := h it (List.mem_cons_self _ _)
    rw [if_pos (by simpa [List.contains, List.elem_eq_mem] using hmem)]
    exact ih s (fun q hq => h q (List.mem_cons_of_mem _ hq))

theorem uniqueKeySet_append_self (l : List SourcedMessage) :
    uniqueKeySet (l ++ l) = uniqueKeySet l := by
  unfold uniqueKeySet
  rw [List.foldl_append]
  refine uniqueKeySet_fold_noop l _ ?_
  intro it hit
  rw [mem_uniqueKeySet_fold]
  exact Or.inr (List.mem_map_of_mem _ hit)

theorem uniqueKeySet_fold_length_nodup :
    ∀ (l : List SourcedMessage) (s : List String),
      (l.map (fun it => getMessageKey it.msg)).Nodup →
      (∀ it ∈ l, getMessageKey it.msg ∉ s) →
      (l.foldl (fun s2 it => if s2.contains (getMessageKey it.msg) then s2
          else s2 ++ [getMessageKey it.msg]) s).length = s.length + l.length := by
  intro l
  induction l with
  | nil => intro s _ _; simp
  | cons it rest ih =>
    intro s hnd hnotin
    simp only [List.foldl_cons]
    have hmem := hnotin it (List.mem_cons_self _ _)
    rw [if_neg (by simpa [List.contains, List.elem_eq_mem] using hmem)]
    rw [List.map_cons] at hnd
    have hnd2 := (List.nodup_cons.1 hnd).2
    have hhd := (List.nodup_cons.1 hnd).1
    rw [ih (s ++ [getMessageKey it.msg]) hnd2 ?_]
    · simp only [List.length_append, List.length_cons, List.length_nil]
      omega
    · intro q hq hmem
      rcases List.mem_append.1 hmem with h | h
      · exact hnotin q (List.mem_cons_of_mem _ hq) h
      · rw [List.mem_singleton] at h
        exact hhd (h ▸ List.mem_map_of_mem _ hq)

/-- C5 counterexample: the file "a" parses to two messages with the
same fingerprint (equal timestamp, sender and content length, different
content); conflict-checking ["a", "a"] reports a total deduplicated
count of 1, while parsing the file once yields 2 messages — so the
self-merge count does not always equal the parse-once count. -/
theorem self_merge_count_counterexample :
    (checkConflicts (fun _ => some "Alpha") wParse ["a", "a"]).map
        ConflictCheckResult.totalMessages = Except.ok 1
      ∧ wResult.messages.length = 2 :=
  ⟨by decide, by decide⟩

/-- C5 amended: self-merge yields the number of distinct fingerprints
of the file; this equals the parse-once message count exactly when the
file's messages carry pairwise distinct fingerprints (the duplicate
fingerprints within a single file collapse, see the counterexample). -/
theorem self_merge_distinct_fingerprint_count (detect : String → Option String)
    (parse : String → Except String ParseResult) (f fmt : String) (r : ParseResult)
    (hdet : detect f = some fmt)
    (hparse : parse f = Except.ok r) :
    ∃ res, checkConflicts detect parse [f, f] = Except.ok res
      ∧ res.totalMessages
          = (uniqueKeySet (r.messages.map (fun m => ⟨m, basename f⟩))).length
      ∧ ((r.messages.map getMessageKey).Nodup →
          res.totalMessages = r.messages.length) := by
  unfold checkConflicts
  have hdetmap : (([f, f] : List String).mapM (fun p =>
      match detect p with
      | some f2 => Except.ok f2
      | none => Except.error (unrecognizedFormatMessage p))
      : Except String (List String)) = Except.ok [fmt, fmt] := by
    rw [List.mapM_cons, List.mapM_cons, List.mapM_nil, hdet]
    rfl
  rw [hdetmap]
  dsimp only
  rw [if_neg (by simp [specDedupBy])]
  have hparsemap : (([f, f] : List String).mapM
      (fun p => (parse p).map (fun r2 => (r2, basename p))))
      = Except.ok [(r, basename f), (r, basename f)] := by
    rw [List.mapM_cons, List.mapM_cons, List.mapM_nil, hparse]
    rfl
  rw [hparsemap]
  simp only [List.map_cons, List.map_nil, List.flatten_cons, List.flatten_nil,
    List.append_nil]
  refine ⟨_, rfl, ?_, ?_⟩
  · dsimp only
    rw [uniqueKeySet_append_self]
  · intro hnd
    dsimp only
    rw [uniqueKeySet_append_self]
    unfold uniqueKeySet
    have hkeys : ((r.messages.map (fun m => (⟨m, basename f⟩ : SourcedMessage))).map
        (fun it => getMessageKey it.msg)) = r.messages.map getMessageKey := by
      rw [List.map_map]
      rfl
    rw [uniqueKeySet_fold_length_nodup _ [] (by rw [hkeys]; exact hnd)
      (by intro q _ hq; simp at hq)]
    simp

/-- Witness for the C5 amended theorem: a file with two
distinct-fingerprint messages self-merges to a count of 2, equal to the
parse-once count. -/
theorem self_merge_distinct_fingerprint_count_witness :
    (((fun _ => some "Alpha") : String → Option String) "a" = some "Alpha")
      ∧ (wParse2 "a" = Except.ok wResult2)
      ∧ (wResult2.messages.map getMessageKey).Nodup
      ∧ (∃ res, checkConflicts (fun _ => some "Alpha") wParse2 ["a", "a"] = Except.ok res
          ∧ res.totalMessages
              = (uniqueKeySet (wResult2.messages.map (fun m => ⟨m, basename "a"⟩))).length
          ∧ ((wResult2.messages.map getMessageKey).Nodup →
              res.totalMessages = wResult2.messages.length)) :=
  ⟨rfl, rfl, by decide,
    self_merge_distinct_fingerprint_count (fun _ => some "Alpha") wParse2 "a" "Alpha"
      wResult2 rfl rfl⟩
